import Mathlib

/-!
Verification development for the reymato-client presentation layer.

The definitions below are a shallow embedding of the client code:
`GameScene.ts` (entity reconciliation in `updateGameObjects`, the animation
state machine in `updatePlayerAnimations` / `animatePlayerKick` / `setInput`,
camera smoothing in `update`, input throttling in `sendInput`, quadrant
highlighting in `handleGameEvent`, teardown in `dispose`) and `App.tsx`
(input-source arbitration in `applyMoveFromSources` / `transformByRole`).

JavaScript `Map<string, T>` objects are modelled as association lists
`List (String × T)` with `alookup` / `aset` mirroring `Map.get` / `Map.set`
(`aset` on an existing key replaces the entry in place, on a fresh key it
appends, exactly like a JS `Map`).  Numeric state is modelled over `ℚ`;
wall-clock times (`Date.now()` milliseconds) over `ℕ`.
-/

/-- Association-list lookup, modelling `Map.get`. -/
def alookup {α : Type} (k : String) : List (String × α) → Option α
  | [] => none
  | (k', v) :: rest => if k' = k then some v else alookup k rest

/-- Association-list insert-or-replace, modelling `Map.set`: replaces an
existing key in place, appends a fresh key. -/
def aset {α : Type} (k : String) (v : α) : List (String × α) → List (String × α)
  | [] => [(k, v)]
  | (k', v') :: rest => if k' = k then (k, v) :: rest else (k', v') :: aset k v rest

/-- Association-list delete, modelling `Map.delete`. -/
def adelete {α : Type} (k : String) : List (String × α) → List (String × α)
  | [] => []
  | (k', v') :: rest => if k' = k then rest else (k', v') :: adelete k rest

/-- Keys of an association list. -/
def keysOf {α : Type} (l : List (String × α)) : List String := l.map Prod.fst

/-- A well-formed JS `Map` image: no key occurs twice. -/
def KeysNodup {α : Type} (l : List (String × α)) : Prop := (keysOf l).Nodup

theorem alookup_cons {α : Type} (k k' : String) (v : α) (l : List (String × α)) :
    alookup k ((k', v) :: l) = if k' = k then some v else alookup k l := rfl

theorem alookup_aset_self {α : Type} (k : String) (v : α) (l : List (String × α)) :
    alookup k (aset k v l) = some v := by
  induction l with
  | nil => simp [aset, alookup]
  | cons e rest ih =>
    obtain ⟨k', v'⟩ := e
    by_cases h : k' = k
    · simp [aset, h, alookup]
    · simp [aset, h, alookup, ih]

theorem alookup_aset_ne {α : Type} {q k : String} (h : q ≠ k) (v : α)
    (l : List (String × α)) : alookup k (aset q v l) = alookup k l := by
  induction l with
  | nil => simp [aset, alookup, h]
  | cons e rest ih =>
    obtain ⟨k', v'⟩ := e
    by_cases hq : k' = q
    · subst hq
      simp [aset, alookup, h]
    · simp [aset, hq, alookup, ih]

theorem alookup_eq_none_of_not_mem_keys {α : Type} {k : String} {l : List (String × α)}
    (h : k ∉ keysOf l) : alookup k l = none := by
  induction l with
  | nil => rfl
  | cons e rest ih =>
    obtain ⟨k', v'⟩ := e
    have hk : k' ≠ k := by
      intro hc
      exact h (hc ▸ List.mem_cons_self _ _)
    have hrest : k ∉ keysOf rest := fun hc => h (List.mem_cons_of_mem _ hc)
    simp [alookup, hk, ih hrest]

theorem alookup_adelete_self {α : Type} (k : String) (l : List (String × α))
    (hnd : KeysNodup l) : alookup k (adelete k l) = none := by
  induction l with
  | nil => rfl
  | cons e rest ih =>
    obtain ⟨k', v'⟩ := e
    have hrest : KeysNodup rest := (List.nodup_cons.mp hnd).2
    by_cases h : k' = k
    · subst h
      simp only [adelete, if_pos rfl]
      exact alookup_eq_none_of_not_mem_keys (List.nodup_cons.mp hnd).1
    · simp only [adelete, if_neg h, alookup, if_neg h]
      exact ih hrest

theorem alookup_adelete_ne {α : Type} {q k : String} (h : q ≠ k)
    (l : List (String × α)) : alookup k (adelete q l) = alookup k l := by
  induction l with
  | nil => rfl
  | cons e rest ih =>
    obtain ⟨k', v'⟩ := e
    by_cases hq : k' = q
    · subst hq
      simp [adelete, alookup, h]
    · simp [adelete, hq, alookup, ih]

theorem alookup_eq_of_mem {α : Type} {l : List (String × α)} {k : String} {v : α}
    (hnd : KeysNodup l) (hm : (k, v) ∈ l) : alookup k l = some v := by
  induction l with
  | nil => cases hm
  | cons e rest ih =>
    obtain ⟨ek, ev⟩ := e
    rcases List.mem_cons.mp hm with hm | hm
    · obtain ⟨h1, h2⟩ := Prod.mk.injEq .. ▸ hm
      subst h1; subst h2
      simp [alookup]
    · have hk : ek ≠ k := by
        intro h
        subst h
        exact (List.nodup_cons.mp hnd).1 (List.mem_map.mpr ⟨(ek, v), hm, rfl⟩)
      have hrest : KeysNodup rest := (List.nodup_cons.mp hnd).2
      simp [alookup, hk, ih hrest hm]

theorem mem_of_alookup_eq {α : Type} {l : List (String × α)} {k : String} {v : α}
    (h : alookup k l = some v) : (k, v) ∈ l := by
  induction l with
  | nil => simp [alookup] at h
  | cons e rest ih =>
    obtain ⟨ek, ev⟩ := e
    by_cases hk : ek = k
    · subst hk
      have hev : ev = v := by simpa [alookup] using h
      subst hev
      exact List.mem_cons_self _ _
    · simp only [alookup, if_neg hk] at h
      exact List.mem_cons_of_mem _ (ih h)

theorem mem_keysOf_aset {α : Type} (q k : String) (v : α) (l : List (String × α)) :
    q ∈ keysOf (aset k v l) ↔ q = k ∨ q ∈ keysOf l := by
  induction l with
  | nil => simp [aset, keysOf]
  | cons e rest ih =>
    obtain ⟨k', v'⟩ := e
    by_cases h : k' = k
    · subst h
      simp [aset, keysOf]
    · simp only [aset, if_neg h, keysOf, List.map_cons, List.mem_cons] at ih ⊢
      tauto

theorem keysNodup_aset {α : Type} (k : String) (v : α) {l : List (String × α)}
    (hnd : KeysNodup l) : KeysNodup (aset k v l) := by
  induction l with
  | nil => simp [aset, KeysNodup, keysOf]
  | cons e rest ih =>
    obtain ⟨k', v'⟩ := e
    have h1 : k' ∉ keysOf rest := (List.nodup_cons.mp hnd).1
    have h2 : KeysNodup rest := (List.nodup_cons.mp hnd).2
    by_cases h : k' = k
    · subst h
      simpa [aset, KeysNodup, keysOf] using hnd
    · have hrec := ih h2
      have hnotin : k' ∉ keysOf (aset k v rest) := by
        intro hc
        rcases (mem_keysOf_aset k' k v rest).mp hc with hc | hc
        · exact h hc
        · exact h1 hc
      simp only [aset, if_neg h, KeysNodup, keysOf, List.map_cons, List.nodup_cons]
      exact ⟨hnotin, hrec⟩

/-! ## Camera Controller (`GameScene.update`, lines 575–603)

The camera tick computes a desired position from the local player's
authoritative state and role and then moves the current camera position by
`position.lerp(desired, cameraFollowLerp)`; `THREE.Vector3.lerp` is
`this += (v - this) * alpha` componentwise. -/

structure Vec3 where
  x : ℚ
  y : ℚ
  z : ℚ
deriving DecidableEq

/-- Componentwise `THREE.Vector3.lerp`: `this += (v - this) * alpha`. -/
def lerpVec (a b : Vec3) (t : ℚ) : Vec3 :=
  ⟨a.x + (b.x - a.x) * t, a.y + (b.y - a.y) * t, a.z + (b.z - a.z) * t⟩

/-- `cameraFollowLerp = 0.06` (GameScene field). -/
def cameraFollowLerp : ℚ := 6 / 100

/-- `courtHalfSize = courtSize / 2 = 8`. -/
def courtHalfSize : ℚ := 8

/-- `baseCameraDistance = 12`. -/
def baseCameraDistance : ℚ := 12

/-- `cameraHeight = 9`. -/
def cameraHeight : ℚ := 9

/-- Kernel-reducible minimum on `ℚ` (used instead of the lattice `min` so
closed instances evaluate by `decide`). -/
def minQ (a b : ℚ) : ℚ := if a ≤ b then a else b

/-- Kernel-reducible maximum on `ℚ`. -/
def maxQ (a b : ℚ) : ℚ := if a ≤ b then b else a

/-- `THREE.MathUtils.clamp(value, min, max) = Math.max(min, Math.min(max, value))`. -/
def clampQ (v lo hi : ℚ) : ℚ := maxQ lo (minQ hi v)

/-- The slice of a `PlayerState` the camera reads: ground-plane position and role. -/
structure PlayerCam where
  x : ℚ
  z : ℚ
  role : String
deriving DecidableEq

/-- Desired camera position computed each tick in `GameScene.update` from the
local player (or the default framing when no local player exists). -/
def desiredCameraPos (myPlayer : Option PlayerCam) : Vec3 :=
  match myPlayer with
  | some p =>
    let shiftX := clampQ (p.x * (4 / 10)) (-3) 3
    let baseZ := if p.role = "rey" ∨ p.role = "rey1" then
        courtHalfSize + baseCameraDistance
      else
        -(courtHalfSize + baseCameraDistance)
    let shiftZ := clampQ (p.z * (25 / 100)) (-2) 2
    ⟨shiftX, cameraHeight, baseZ + shiftZ⟩
  | none => ⟨0, cameraHeight, courtHalfSize + baseCameraDistance⟩

/-- One camera tick: `camera.position.lerp(desiredCameraPos, cameraFollowLerp)`. -/
def cameraUpdate (myPlayer : Option PlayerCam) (old : Vec3) : Vec3 :=
  lerpVec old (desiredCameraPos myPlayer) cameraFollowLerp

/-- Squared Euclidean distance between two positions. -/
def distSq (a b : Vec3) : ℚ :=
  (b.x - a.x) ^ 2 + (b.y - a.y) ^ 2 + (b.z - a.z) ^ 2

theorem distSq_lerpVec (a b : Vec3) (t : ℚ) :
    distSq a (lerpVec a b t) = t ^ 2 * distSq a b := by
  simp only [distSq, lerpVec]
  ring

theorem distSq_nonneg (a b : Vec3) : 0 ≤ distSq a b := by
  simp only [distSq]
  positivity

theorem distSq_pos_of_ne {a b : Vec3} (h : a ≠ b) : 0 < distSq a b := by
  rcases eq_or_lt_of_le (distSq_nonneg a b) with heq | hlt
  · exfalso
    apply h
    simp only [distSq] at heq
    have hx : (b.x - a.x) ^ 2 ≤ 0 := by nlinarith [sq_nonneg (b.y - a.y), sq_nonneg (b.z - a.z)]
    have hy : (b.y - a.y) ^ 2 ≤ 0 := by nlinarith [sq_nonneg (b.x - a.x), sq_nonneg (b.z - a.z)]
    have hz : (b.z - a.z) ^ 2 ≤ 0 := by nlinarith [sq_nonneg (b.x - a.x), sq_nonneg (b.y - a.y)]
    have hx0 : b.x - a.x = 0 :=
      pow_eq_zero_iff (two_ne_zero) |>.mp (le_antisymm hx (sq_nonneg _))
    have hy0 : b.y - a.y = 0 :=
      pow_eq_zero_iff (two_ne_zero) |>.mp (le_antisymm hy (sq_nonneg _))
    have hz0 : b.z - a.z = 0 :=
      pow_eq_zero_iff (two_ne_zero) |>.mp (le_antisymm hz (sq_nonneg _))
    obtain ⟨ax, ay, az⟩ := a
    obtain ⟨bx, by', bz⟩ := b
    simp only [Vec3.mk.injEq]
    refine ⟨by linarith [sub_eq_zero.mp hx0], by linarith [sub_eq_zero.mp hy0],
      by linarith [sub_eq_zero.mp hz0]⟩
  · exact hlt

/-- C4: the camera position after a tick is the exponential-smoothing step
`old + 0.06 · (desired − old)` componentwise, and whenever the camera is not
already at the desired position the (squared) distance moved in the tick is
strictly less than the full (squared) remaining delta, for every desired
position (including discontinuous jumps of the source position). -/
theorem c4_camera_smoothing (myPlayer : Option PlayerCam) (old : Vec3) :
    cameraUpdate myPlayer old =
      ⟨old.x + (6 / 100) * ((desiredCameraPos myPlayer).x - old.x),
       old.y + (6 / 100) * ((desiredCameraPos myPlayer).y - old.y),
       old.z + (6 / 100) * ((desiredCameraPos myPlayer).z - old.z)⟩ ∧
    (old ≠ desiredCameraPos myPlayer →
      distSq old (cameraUpdate myPlayer old) < distSq old (desiredCameraPos myPlayer)) := by
  constructor
  · simp only [cameraUpdate, lerpVec, cameraFollowLerp, Vec3.mk.injEq]
    refine ⟨by ring, by ring, by ring⟩
  · intro hne
    have hpos := distSq_pos_of_ne hne
    have heq : distSq old (cameraUpdate myPlayer old) =
        (6 / 100 : ℚ) ^ 2 * distSq old (desiredCameraPos myPlayer) := by
      simpa [cameraUpdate, cameraFollowLerp] using
        distSq_lerpVec old (desiredCameraPos myPlayer) (6 / 100)
    rw [heq]
    nlinarith [hpos]

/-- Closed instance of `c4_camera_smoothing`: local player of role rey at the
origin, camera starting at the origin; the hypothesis `old ≠ desired` is
discharged concretely. -/
theorem c4_camera_smoothing_witness :
    (Vec3.mk 0 0 0 ≠ desiredCameraPos (some ⟨0, 0, "rey"⟩)) ∧
    distSq ⟨0, 0, 0⟩ (cameraUpdate (some ⟨0, 0, "rey"⟩) ⟨0, 0, 0⟩) <
      distSq ⟨0, 0, 0⟩ (desiredCameraPos (some ⟨0, 0, "rey"⟩)) :=
  ⟨by norm_num [desiredCameraPos, clampQ, minQ, maxQ, cameraHeight, courtHalfSize,
      baseCameraDistance],
   (c4_camera_smoothing (some ⟨0, 0, "rey"⟩) ⟨0, 0, 0⟩).2
     (by norm_num [desiredCameraPos, clampQ, minQ, maxQ, cameraHeight, courtHalfSize,
        baseCameraDistance])⟩

/-! ## Input Sampler/Arbiter (`App.tsx`: `transformByRole` lines 74–87,
`applyMoveFromSources` lines 89–108)

The code compares `Math.hypot(x, y)` against the dead-zone `0.05`; since both
sides are nonnegative this is equivalent to comparing the squared magnitude
against `0.05² = 1/400`, which keeps the embedding inside `ℚ`. -/

inductive InputSource where
  | joystick
  | keyboard
deriving DecidableEq

/-- The refs read and written by `applyMoveFromSources`: the two staged source
vectors, the staged merged move vector, and the active-source tag. -/
structure ArbiterState where
  joystickVec : ℚ × ℚ
  keyboardVec : ℚ × ℚ
  move : ℚ × ℚ
  lastSource : Option InputSource
deriving DecidableEq

/-- `transformByRole` (App.tsx): top-half roles map `(x, y) ↦ (x, -y)`, the
bottom half (and any other role) maps `(x, y) ↦ (-x, -y)`. -/
def transformByRole (role : String) (x y : ℚ) : ℚ × ℚ :=
  if role = "rey" ∨ role = "rey1" then (x, -y) else (-x, -y)

/-- Squared magnitude, standing for `Math.hypot(v.x, v.y)²`. -/
def magSq (v : ℚ × ℚ) : ℚ := v.1 ^ 2 + v.2 ^ 2

/-- The squared dead-zone threshold `0.05² = 1/400`. -/
def deadZoneSq : ℚ := 1 / 400

/-- `applyMoveFromSources`: joystick wins above the dead zone, else keyboard,
else the merged vector is zero and no source is active. -/
def applyMoveFromSources (currentRole : String) (st : ArbiterState) : ArbiterState :=
  let j := st.joystickVec
  let k := st.keyboardVec
  if magSq j > deadZoneSq then
    { st with move := transformByRole currentRole j.1 j.2,
              lastSource := some InputSource.joystick }
  else if magSq k > deadZoneSq then
    { st with move := transformByRole currentRole k.1 k.2,
              lastSource := some InputSource.keyboard }
  else
    { st with move := (0, 0), lastSource := none }

/-- C3 counterexample: with role rey, continuous (joystick) vector `(0, 1)` of
magnitude 1 (above the dead zone) and discrete vector `(0, 0)`, the merged
vector produced by `applyMoveFromSources` is `(0, -1)`, not the continuous
vector `(0, 1)`: the code stages the role-axis transform of the winning
source, so the claim as stated is false. -/
theorem c3_merge_counterexample :
    magSq ((0 : ℚ), (1 : ℚ)) > deadZoneSq ∧
    (applyMoveFromSources "rey" ⟨(0, 1), (0, 0), (0, 0), none⟩).move ≠ ((0 : ℚ), (1 : ℚ)) := by
  constructor
  · norm_num [magSq, deadZoneSq]
  · norm_num [applyMoveFromSources, magSq, deadZoneSq, transformByRole, Prod.ext_iff]

/-- C3 (amended): the merged vector is determined solely by the winning source
under the role-axis transform — if the continuous magnitude exceeds the dead
zone the merged vector is `transformByRole` of the continuous vector whatever
the discrete vector holds, and the joystick is tagged active; else if the
discrete magnitude exceeds the dead zone the merged vector is `transformByRole`
of the discrete vector and the keyboard is tagged active; else the merged
vector is `(0, 0)` and no source is active.  In particular, with continuous
vector `(0.9, 0)` (magnitude 0.9) and discrete vector `(1, 0)` (magnitude 1)
under role rey, the merged vector equals the continuous vector. -/
theorem c3_merge_precedence :
    (∀ (role : String) (st : ArbiterState), magSq st.joystickVec > deadZoneSq →
      (applyMoveFromSources role st).move =
        transformByRole role st.joystickVec.1 st.joystickVec.2 ∧
      (applyMoveFromSources role st).lastSource = some InputSource.joystick) ∧
    (∀ (role : String) (st : ArbiterState), magSq st.joystickVec ≤ deadZoneSq →
      magSq st.keyboardVec > deadZoneSq →
      (applyMoveFromSources role st).move =
        transformByRole role st.keyboardVec.1 st.keyboardVec.2 ∧
      (applyMoveFromSources role st).lastSource = some InputSource.keyboard) ∧
    (∀ (role : String) (st : ArbiterState), magSq st.joystickVec ≤ deadZoneSq →
      magSq st.keyboardVec ≤ deadZoneSq →
      (applyMoveFromSources role st).move = (0, 0) ∧
      (applyMoveFromSources role st).lastSource = none) ∧
    (applyMoveFromSources "rey" ⟨(9 / 10, 0), (1, 0), (0, 0), none⟩).move = (9 / 10, 0) := by
  refine ⟨?_, ?_, ?_, ?_⟩
  · intro role st hj
    simp [applyMoveFromSources, if_pos hj]
  · intro role st hj hk
    rw [applyMoveFromSources]
    simp only [if_neg (not_lt.mpr hj), if_pos hk]
    simp
  · intro role st hj hk
    rw [applyMoveFromSources]
    simp only [if_neg (not_lt.mpr hj), if_neg (not_lt.mpr hk)]
    simp
  · norm_num [applyMoveFromSources, magSq, deadZoneSq, transformByRole, Prod.ext_iff]

/-- Closed instance of `c3_merge_precedence`: continuous vector `(0.9, 0)`,
discrete vector `(1, 0)`, role rey; the dead-zone hypothesis is discharged
concretely. -/
theorem c3_merge_precedence_witness :
    magSq (((9 : ℚ) / 10, (0 : ℚ))) > deadZoneSq ∧
    (applyMoveFromSources "rey" ⟨(9 / 10, 0), (1, 0), (0, 0), none⟩).move =
      transformByRole "rey" (9 / 10) 0 :=
  ⟨by norm_num [magSq, deadZoneSq],
   (c3_merge_precedence.1 "rey" ⟨(9 / 10, 0), (1, 0), (0, 0), none⟩
     (by norm_num [magSq, deadZoneSq])).1⟩

/-! ## Quadrant highlight flash (`GameScene.handleGameEvent`, lines 891–912)

A `quadrantHighlight` message saves the targeted overlay material's current
color and opacity, sets the highlight color and opacity `0.65`, and restores
the saved values when the 600 ms timer fires.  The handler and the timer
callback are modelled as two functions; `quadrantHighlightFlash` composes
them (message followed by the timer, which is what happens when no further
message arrives within the flash duration). -/

structure OverlayMat where
  color : ℕ
  opacity : ℚ
deriving DecidableEq

/-- The four quadrant overlays created in `createCourt` (color, opacity 0.3). -/
def quadrantOverlaysInit : List (String × OverlayMat) :=
  [("rey", ⟨0xFFD700, 3 / 10⟩), ("rey1", ⟨0xC0C0C0, 3 / 10⟩),
   ("rey2", ⟨0xCD7F32, 3 / 10⟩), ("mato", ⟨0xFF6B6B, 3 / 10⟩)]

/-- The values captured by the handler for the 600 ms restore timer. -/
structure PendingRestore where
  role : String
  color : ℕ
  opacity : ℚ
deriving DecidableEq

/-- The `quadrantHighlight` branch of `handleGameEvent`: a role with no
overlay is ignored; otherwise the original color/opacity are saved, the
overlay is set to the highlight color and opacity `0.65`, and a restore is
scheduled. -/
def quadrantHighlightStart (overlays : List (String × OverlayMat))
    (role colorStr : String) : List (String × OverlayMat) × Option PendingRestore :=
  match alookup role overlays with
  | none => (overlays, none)
  | some mat =>
    let originalColor := mat.color
    let targetColor : ℕ := if colorStr = "red" then 0xFF0000 else 0x0000FF
    let originalOpacity := mat.opacity
    (aset role ⟨targetColor, 13 / 20⟩ overlays, some ⟨role, originalColor, originalOpacity⟩)

/-- The `setTimeout` callback: restore the saved color and opacity. -/
def quadrantHighlightRestore (overlays : List (String × OverlayMat)) :
    Option PendingRestore → List (String × OverlayMat)
  | none => overlays
  | some r => aset r.role ⟨r.color, r.opacity⟩ overlays

/-- Message handling followed by the 600 ms timer firing undisturbed. -/
def quadrantHighlightFlash (overlays : List (String × OverlayMat))
    (role colorStr : String) : List (String × OverlayMat) :=
  let st := quadrantHighlightStart overlays role colorStr
  quadrantHighlightRestore st.1 st.2

theorem aset_aset {α : Type} (k : String) (v v' : α) (l : List (String × α)) :
    aset k v' (aset k v l) = aset k v' l := by
  induction l with
  | nil => simp [aset]
  | cons e rest ih =>
    obtain ⟨k', w⟩ := e
    by_cases h : k' = k
    · subst h
      simp [aset]
    · simp [aset, h, ih]

theorem aset_of_alookup_eq {α : Type} {k : String} {v : α} {l : List (String × α)}
    (h : alookup k l = some v) : aset k v l = l := by
  induction l with
  | nil => simp [alookup] at h
  | cons e rest ih =>
    obtain ⟨k', w⟩ := e
    by_cases hk : k' = k
    · subst hk
      have hw : w = v := by simpa [alookup] using h
      subst hw
      simp [aset]
    · simp only [alookup, if_neg hk] at h
      simp [aset, hk, ih h]

/-- C9: a `quadrantHighlight` message for a role with an overlay sets that
overlay to the highlight color with opacity `0.65`, and once the 600 ms timer
fires (no further messages intervening) the overlay map is exactly what it
was before the message; a message naming a role with no overlay changes
nothing and schedules nothing. -/
theorem c9_quadrant_highlight (overlays : List (String × OverlayMat))
    (role colorStr : String) :
    (∀ mat, alookup role overlays = some mat →
      (quadrantHighlightStart overlays role colorStr).1 =
        aset role ⟨if colorStr = "red" then 0xFF0000 else 0x0000FF, 13 / 20⟩ overlays ∧
      quadrantHighlightFlash overlays role colorStr = overlays) ∧
    (alookup role overlays = none →
      quadrantHighlightFlash overlays role colorStr = overlays ∧
      (quadrantHighlightStart overlays role colorStr).2 = none) := by
  constructor
  · intro mat hm
    constructor
    · simp [quadrantHighlightStart, hm]
    · have hmat : (⟨mat.color, mat.opacity⟩ : OverlayMat) = mat := rfl
      simp [quadrantHighlightFlash, quadrantHighlightStart, hm, quadrantHighlightRestore,
        aset_aset, hmat, aset_of_alookup_eq hm]
  · intro hm
    refine ⟨?_, ?_⟩
    · simp [quadrantHighlightFlash, quadrantHighlightStart, hm, quadrantHighlightRestore]
    · simp [quadrantHighlightStart, hm]

/-- Closed instance of `c9_quadrant_highlight`: the rey overlay flashed red
returns exactly to its initial state. -/
theorem c9_quadrant_highlight_witness :
    alookup "rey" quadrantOverlaysInit = some ⟨0xFFD700, 3 / 10⟩ ∧
    quadrantHighlightFlash quadrantOverlaysInit "rey" "red" = quadrantOverlaysInit :=
  ⟨by simp [quadrantOverlaysInit, alookup],
   ((c9_quadrant_highlight quadrantOverlaysInit "rey" "red").1 ⟨0xFFD700, 3 / 10⟩
     (by simp [quadrantOverlaysInit, alookup])).2⟩

/-! ## Outbound input throttling (`GameScene.sendInput` lines 939–953, timer
set up in `setupEventListeners` lines 560–564)

`sendInput` returns early when no room has been joined, then early when fewer
than 33 ms have elapsed since `lastInputSent`; otherwise it sends the current
staged input and records the send time.  `runInputTimer` replays the
fixed-rate timer over a list of `Date.now()` values and collects the sends. -/

structure InputStaged where
  move : ℚ × ℚ
  jump : Bool
  action : Option String
deriving DecidableEq

structure NetState where
  room : Bool
  lastInputSent : ℕ
  currentInput : InputStaged
deriving DecidableEq

/-- `sendInput` at clock value `now`: the updated state and the payload sent,
if any.  In `ℕ`, the guard `now - lastInputSent < 33` (with truncated
subtraction) is equivalent to `now < lastInputSent + 33`, covering the
clock-went-backwards reading as well. -/
def sendInput (st : NetState) (now : ℕ) : NetState × Option InputStaged :=
  if !st.room then (st, none)
  else if now - st.lastInputSent < 33 then (st, none)
  else ({ st with lastInputSent := now }, some st.currentInput)

/-- Replay the 30 Hz interval timer over the given clock values, collecting
every `(time, payload)` actually transmitted. -/
def runInputTimer (st : NetState) : List ℕ → NetState × List (ℕ × InputStaged)
  | [] => (st, [])
  | now :: rest =>
    let r := sendInput st now
    let rec' := runInputTimer r.1 rest
    (rec'.1, match r.2 with
      | none => rec'.2
      | some p => (now, p) :: rec'.2)

theorem sendInput_no_send_state {st : NetState} {now : ℕ}
    (h : (sendInput st now).2 = none) : (sendInput st now).1 = st := by
  rw [sendInput] at h ⊢
  by_cases hr : st.room
  · simp only [hr, Bool.not_true, Bool.false_eq_true, if_false] at h ⊢
    by_cases ht : now - st.lastInputSent < 33
    · simp [ht]
    · simp [ht] at h
  · simp [hr]

theorem sendInput_send_iff {st : NetState} {now : ℕ} :
    (sendInput st now).2 ≠ none ↔ st.room = true ∧ st.lastInputSent + 33 ≤ now := by
  rw [sendInput]
  by_cases hr : st.room
  · by_cases ht : now - st.lastInputSent < 33
    · simp [hr, ht]
      omega
    · simp [hr, ht]
      omega
  · simp [hr]

/-- Auxiliary bound: if every timer tick happens before
`lastInputSent + 33 + 33·m`, at most `m` sends occur. -/
theorem runInputTimer_count_aux (ts : List ℕ) :
    ∀ (st : NetState) (m : ℕ),
      (∀ x ∈ ts, x < st.lastInputSent + 33 + 33 * m) →
      (runInputTimer st ts).2.length ≤ m := by
  induction ts with
  | nil => intro st m _; simp [runInputTimer]
  | cons now rest ih =>
    intro st m hb
    rw [runInputTimer]
    by_cases hs : (sendInput st now).2 = none
    · have hst := sendInput_no_send_state hs
      simp only [hs, hst]
      exact ih st m (fun x hx => hb x (List.mem_cons_of_mem _ hx))
    · obtain ⟨p, hp⟩ := Option.ne_none_iff_exists'.mp hs
      have hcond := sendInput_send_iff.mp hs
      have hst1 : (sendInput st now).1 = { st with lastInputSent := now } := by
        rw [sendInput]
        simp [hcond.1, Nat.not_lt.mpr (by omega : 33 ≤ now - st.lastInputSent)]
      have hnow_lt : now < st.lastInputSent + 33 + 33 * m := hb now (List.mem_cons_self _ _)
      have hm : 1 ≤ m := by omega
      simp only [hp, hst1]
      have hrest : ∀ x ∈ rest, x < now + 33 + 33 * (m - 1) := by
        intro x hx
        have := hb x (List.mem_cons_of_mem _ hx)
        omega
      have := ih { st with lastInputSent := now } (m - 1) hrest
      simp only [List.length_cons]
      omega

/-- Window bound: if every timer tick lies in `[t, t + 33*k)`, at most `k`
sends occur, whatever the prior `lastInputSent` value. -/
theorem runInputTimer_window_bound (ts : List ℕ) :
    ∀ (st : NetState) (t k : ℕ),
      (∀ x ∈ ts, t ≤ x ∧ x < t + 33 * k) →
      (runInputTimer st ts).2.length ≤ k := by
  induction ts with
  | nil => intro st t k _; simp [runInputTimer]
  | cons now rest ih =>
    intro st t k hb
    rw [runInputTimer]
    by_cases hs : (sendInput st now).2 = none
    · have hst := sendInput_no_send_state hs
      simp only [hs, hst]
      exact ih st t k (fun x hx => hb x (List.mem_cons_of_mem _ hx))
    · obtain ⟨p, hp⟩ := Option.ne_none_iff_exists'.mp hs
      have hcond := sendInput_send_iff.mp hs
      have hst1 : (sendInput st now).1 = { st with lastInputSent := now } := by
        rw [sendInput]
        simp [hcond.1, Nat.not_lt.mpr (by omega : 33 ≤ now - st.lastInputSent)]
      have hnow := hb now (List.mem_cons_self _ _)
      have hk : 1 ≤ k := by omega
      simp only [hp, hst1, List.length_cons]
      have haux := runInputTimer_count_aux rest { st with lastInputSent := now } (k - 1)
        (by
          intro x hx
          have hx2 := hb x (List.mem_cons_of_mem _ hx)
          show x < now + 33 + 33 * (k - 1)
          omega)
      omega

/-- C5: a send happens exactly when a room is joined and at least 33 ms have
elapsed since `lastInputSent`; it transmits the latest staged input (earlier
updates between sends are simply overwritten, never queued) and records the
send time; a throttled call changes nothing; and over any wall-clock window
`[t, t + 33·k)` the number of transmitted input messages is at most `k`,
regardless of how many timer callbacks fired in the window. -/
theorem c5_input_throttle :
    (∀ (st : NetState) (now : ℕ), st.room = true → st.lastInputSent + 33 ≤ now →
      sendInput st now = ({ st with lastInputSent := now }, some st.currentInput)) ∧
    (∀ (st : NetState) (now : ℕ), now < st.lastInputSent + 33 →
      sendInput st now = (st, none)) ∧
    (∀ (st : NetState) (ts : List ℕ) (t k : ℕ),
      (∀ x ∈ ts, t ≤ x ∧ x < t + 33 * k) →
      (runInputTimer st ts).2.length ≤ k) := by
  refine ⟨?_, ?_, ?_⟩
  · intro st now hr ht
    rw [sendInput]
    simp [hr, Nat.not_lt.mpr (by omega : 33 ≤ now - st.lastInputSent)]
  · intro st now ht
    rw [sendInput]
    by_cases hr : st.room
    · simp [hr, (by omega : now - st.lastInputSent < 33)]
    · simp [hr]
  · intro st ts t k hb
    exact runInputTimer_window_bound ts st t k hb

/-- Closed instance of `c5_input_throttle`: three timer callbacks inside the
66 ms window starting at 40 produce at most 2 sends. -/
theorem c5_input_throttle_witness :
    (∀ x ∈ [40, 50, 80], 40 ≤ x ∧ x < 40 + 33 * 2) ∧
    (runInputTimer ⟨true, 0, ⟨(0, 0), false, none⟩⟩ [40, 50, 80]).2.length ≤ 2 :=
  ⟨by decide,
   c5_input_throttle.2.2 ⟨true, 0, ⟨(0, 0), false, none⟩⟩ [40, 50, 80] 40 2 (by decide)⟩

/-- C10: while no room has been joined, every `sendInput` call — and hence
the whole fixed-rate timer loop started at construction — is a complete
no-op: the state (in particular `lastInputSent`) is unchanged and nothing is
transmitted. -/
theorem c10_no_room_no_send :
    ∀ (last : ℕ) (inp : InputStaged) (ts : List ℕ) (now : ℕ),
      sendInput ⟨false, last, inp⟩ now = (⟨false, last, inp⟩, none) ∧
      runInputTimer ⟨false, last, inp⟩ ts = (⟨false, last, inp⟩, []) := by
  intro last inp ts now
  constructor
  · rw [sendInput]
    simp
  · induction ts with
    | nil => rfl
    | cons t rest ih =>
      rw [runInputTimer]
      have h1 : sendInput ⟨false, last, inp⟩ t = (⟨false, last, inp⟩, none) := by
        rw [sendInput]; simp
      simp [h1, ih]

/-! ## Animation state machine (`GameScene.animatePlayerKick` lines 955–961,
`setInput` lines 930–937, `updatePlayerAnimations` lines 963–1037)

The six pose attributes driven by the kick/head animations are modelled in
`CharacterPose`; every other part of the mesh is untouched by this code.  The
in-flight pose is an affine function of `kickProgress = Math.sin(progress·π)`;
the sine profile is factored out as a function parameter `s : ℚ → ℚ` (it is
the only transcendental part of the tick), and the real half-sine profile is
defined separately as `halfSine` over `ℝ` with its endpoint value proved. -/

structure CharacterPose where
  rightLegRotX : ℚ
  rightFootPosZ : ℚ
  rightFootRotX : ℚ
  leftLegRotX : ℚ
  leftFootPosZ : ℚ
  characterRotX : ℚ
deriving DecidableEq

/-- The rest pose: leg/foot rotations 0, foot z-positions 0.1 (from
`createAmongUsCharacter`), character tilt 0. -/
def neutralPose : CharacterPose := ⟨0, 1 / 10, 0, 0, 1 / 10, 0⟩

/-- One `playerAnimations` entry: `{ type, startTime }`. -/
structure AnimRec where
  type : String
  startTime : ℕ
deriving DecidableEq

/-- The kick pose as a function of `kickProgress` (the half-sine value):
right leg kicks forward, right foot moves forward and tilts, left leg leans
back, support foot moves back, body leans forward. -/
def kickPoseAt (kp : ℚ) (pose : CharacterPose) : CharacterPose :=
  { pose with
    rightLegRotX := kp * (12 / 10),
    rightFootPosZ := 1 / 10 + kp * (6 / 10),
    rightFootRotX := kp * (5 / 10),
    leftLegRotX := -(kp * (3 / 10)),
    leftFootPosZ := 1 / 10 - kp * (2 / 10),
    characterRotX := kp * (2 / 10) }

/-- The head pose: only the character tilt is driven (`headTilt = kp * 0.3`). -/
def headPoseAt (kp : ℚ) (pose : CharacterPose) : CharacterPose :=
  { pose with characterRotX := kp * (3 / 10) }

/-- The reset branch of `updatePlayerAnimations`: every driven attribute is
forced to its rest value. -/
def resetPose (pose : CharacterPose) : CharacterPose :=
  { pose with
    rightLegRotX := 0, rightFootPosZ := 1 / 10, rightFootRotX := 0,
    leftLegRotX := 0, leftFootPosZ := 1 / 10, characterRotX := 0 }

/-- The shared state read and written by `updatePlayerAnimations`. -/
structure AnimState where
  playerMeshes : List (String × CharacterPose)
  playerAnimations : List (String × AnimRec)
deriving DecidableEq

/-- One loop iteration of `updatePlayerAnimations` for entry `e`, threading
the kept-records list: a record whose mesh is missing is kept unchanged
(`continue`); an in-flight kick/head record (elapsed < 500) writes the
half-sine pose; otherwise every driven part is reset and the record is
dropped (`playerAnimations.delete`). -/
def animTickOne (s : ℚ → ℚ) (now : ℕ) (acc : AnimState) (e : String × AnimRec) : AnimState :=
  let elapsed := now - e.2.startTime
  match alookup e.1 acc.playerMeshes with
  | none => { acc with playerAnimations := acc.playerAnimations ++ [e] }
  | some pose =>
    if (e.2.type = "kick" ∨ e.2.type = "head") ∧ elapsed < 500 then
      let progress : ℚ := (elapsed : ℚ) / 500
      let kp := s progress
      let pose' := if e.2.type = "kick" then kickPoseAt kp pose else headPoseAt kp pose
      { acc with playerMeshes := aset e.1 pose' acc.playerMeshes,
                 playerAnimations := acc.playerAnimations ++ [e] }
    else
      { playerMeshes := aset e.1 (resetPose pose) acc.playerMeshes,
        playerAnimations := acc.playerAnimations }

/-- `updatePlayerAnimations`: one render-loop tick over all records. -/
def updatePlayerAnimations (s : ℚ → ℚ) (now : ℕ) (st : AnimState) : AnimState :=
  st.playerAnimations.foldl (animTickOne s now)
    { playerMeshes := st.playerMeshes, playerAnimations := [] }

/-- The half-sine easing profile `p ↦ sin(p·π)` used by the animation code
(noncomputable because exact real sine is not executable; the tick function
takes the profile as a parameter). -/
noncomputable def halfSine (p : ℝ) : ℝ := Real.sin (p * Real.pi)

theorem alookup_append {α : Type} (k : String) (l1 l2 : List (String × α)) :
    alookup k (l1 ++ l2) =
      match alookup k l1 with
      | some v => some v
      | none => alookup k l2 := by
  induction l1 with
  | nil => simp [alookup]
  | cons e rest ih =>
    obtain ⟨k', v'⟩ := e
    by_cases h : k' = k
    · simp [alookup, h]
    · simp [alookup, h, ih]

/-- The tick fold leaves the meshes of ids outside the pending list alone. -/
theorem animFold_mesh_of_not_mem (s : ℚ → ℚ) (now : ℕ) (l : List (String × AnimRec)) :
    ∀ (acc : AnimState) (pid : String), pid ∉ keysOf l →
      alookup pid (l.foldl (animTickOne s now) acc).playerMeshes =
        alookup pid acc.playerMeshes := by
  induction l with
  | nil => intro acc pid _; rfl
  | cons e rest ih =>
    intro acc pid hpid
    have hne : e.1 ≠ pid := by
      intro hc
      exact hpid (hc ▸ List.mem_cons_self _ _)
    have hrest : pid ∉ keysOf rest := fun hc => hpid (List.mem_cons_of_mem _ hc)
    rw [List.foldl_cons, ih _ pid hrest]
    rw [animTickOne]
    cases halo : alookup e.1 acc.playerMeshes with
    | none => rfl
    | some pose =>
      by_cases hcond : (e.2.type = "kick" ∨ e.2.type = "head") ∧ now - e.2.startTime < 500
      · simp only [halo, if_pos hcond]
        exact alookup_aset_ne hne _ _
      · simp only [halo, if_neg hcond]
        exact alookup_aset_ne hne _ _

/-- The tick fold never resurrects a record for an id outside the pending
list that is not already among the kept records. -/
theorem animFold_anim_of_not_mem (s : ℚ → ℚ) (now : ℕ) (l : List (String × AnimRec)) :
    ∀ (acc : AnimState) (pid : String), pid ∉ keysOf l →
      alookup pid acc.playerAnimations = none →
      alookup pid (l.foldl (animTickOne s now) acc).playerAnimations = none := by
  induction l with
  | nil => intro acc pid _ h; exact h
  | cons e rest ih =>
    intro acc pid hpid hnone
    have hne : e.1 ≠ pid := by
      intro hc
      exact hpid (hc ▸ List.mem_cons_self _ _)
    have hrest : pid ∉ keysOf rest := fun hc => hpid (List.mem_cons_of_mem _ hc)
    rw [List.foldl_cons]
    apply ih _ pid hrest
    rw [animTickOne]
    have happ : alookup pid (acc.playerAnimations ++ [e]) = none := by
      rw [alookup_append, hnone]
      simp [alookup, hne]
    cases halo : alookup e.1 acc.playerMeshes with
    | none => exact happ
    | some pose =>
      by_cases hcond : (e.2.type = "kick" ∨ e.2.type = "head") ∧ now - e.2.startTime < 500
      · simp only [halo, if_pos hcond]
        exact happ
      · simp only [halo, if_neg hcond]
        exact hnone

/-- Records already kept stay kept through the rest of the fold. -/
theorem animFold_anim_mono (s : ℚ → ℚ) (now : ℕ) (l : List (String × AnimRec)) :
    ∀ (acc : AnimState) (x : String × AnimRec), x ∈ acc.playerAnimations →
      x ∈ (l.foldl (animTickOne s now) acc).playerAnimations := by
  induction l with
  | nil => intro acc x hx; exact hx
  | cons e rest ih =>
    intro acc x hx
    rw [List.foldl_cons]
    apply ih
    rw [animTickOne]
    cases halo : alookup e.1 acc.playerMeshes with
    | none => exact List.mem_append_left _ hx
    | some pose =>
      by_cases hcond : (e.2.type = "kick" ∨ e.2.type = "head") ∧ now - e.2.startTime < 500
      · simp only [halo, if_pos hcond]
        exact List.mem_append_left _ hx
      · simp only [halo, if_neg hcond]
        exact hx

/-- Core completion lemma for the tick fold: a pending record whose mesh
exists and whose duration has elapsed leaves the mesh in the exact neutral
pose and the record dropped. -/
theorem animFold_completes (s : ℚ → ℚ) (now : ℕ) (l : List (String × AnimRec)) :
    ∀ (acc : AnimState) (pid : String) (anim : AnimRec) (pose : CharacterPose),
      (keysOf l).Nodup →
      (∀ q ∈ keysOf l, alookup q acc.playerAnimations = none) →
      (pid, anim) ∈ l →
      alookup pid acc.playerMeshes = some pose →
      anim.startTime + 500 ≤ now →
      alookup pid (l.foldl (animTickOne s now) acc).playerMeshes = some neutralPose ∧
      alookup pid (l.foldl (animTickOne s now) acc).playerAnimations = none := by
  induction l with
  | nil => intro _ _ _ _ _ _ hm; cases hm
  | cons e rest ih =>
    obtain ⟨ek, ea⟩ := e
    intro acc pid anim pose hnd hdisj hm hmesh helapsed
    have hndrest : (keysOf rest).Nodup := (List.nodup_cons.mp hnd).2
    rcases List.mem_cons.mp hm with heq | hmrest
    · injection heq with h1 h2
      subst h1
      subst h2
      have hnotrest : pid ∉ keysOf rest := (List.nodup_cons.mp hnd).1
      rw [List.foldl_cons]
      have hcond : ¬ ((anim.type = "kick" ∨ anim.type = "head") ∧
          now - anim.startTime < 500) := by
        intro hc
        omega
      have hstep : animTickOne s now acc (pid, anim) =
          { playerMeshes := aset pid (resetPose pose) acc.playerMeshes,
            playerAnimations := acc.playerAnimations } := by
        rw [animTickOne]
        simp only [hmesh, if_neg hcond]
      rw [hstep]
      constructor
      · rw [animFold_mesh_of_not_mem s now rest _ pid hnotrest]
        simp only [alookup_aset_self]
        rfl
      · apply animFold_anim_of_not_mem s now rest _ pid hnotrest
        exact hdisj pid (List.mem_cons_self _ _)
    · have hne : ek ≠ pid := by
        intro hc
        have hmem : pid ∈ keysOf rest := List.mem_map.mpr ⟨(pid, anim), hmrest, rfl⟩
        exact (List.nodup_cons.mp hnd).1 (hc ▸ hmem)
      rw [List.foldl_cons]
      apply ih
      · exact hndrest
      · intro q hq
        have hqnone : alookup q acc.playerAnimations = none :=
          hdisj q (List.mem_cons_of_mem _ hq)
        have hqe : ek ≠ q := by
          intro hc
          exact (List.nodup_cons.mp hnd).1 (hc ▸ hq)
        rw [animTickOne]
        cases halo : alookup ek acc.playerMeshes with
        | none =>
          rw [alookup_append, hqnone]
          simp [alookup, hqe]
        | some pose2 =>
          by_cases hcond : (ea.type = "kick" ∨ ea.type = "head") ∧ now - ea.startTime < 500
          · simp only [halo, if_pos hcond]
            rw [alookup_append, hqnone]
            simp [alookup, hqe]
          · simp only [halo, if_neg hcond]
            exact hqnone
      · exact hmrest
      · rw [animTickOne]
        cases halo : alookup ek acc.playerMeshes with
        | none => exact hmesh
        | some pose2 =>
          by_cases hcond : (ea.type = "kick" ∨ ea.type = "head") ∧ now - ea.startTime < 500
          · simp only [halo, if_pos hcond]
            rw [alookup_aset_ne hne]
            exact hmesh
          · simp only [halo, if_neg hcond]
            rw [alookup_aset_ne hne]
            exact hmesh
      · exact helapsed

/-- C2: for every kick/head animation record, on any tick where the elapsed
time has reached the fixed 500 ms duration, `updatePlayerAnimations` forces
every driven attribute of the target mesh back to its exact neutral rest
value and deletes the record; moreover the half-sine profile is `0` at
progress 1, and the kick pose at profile value 0 is exactly the neutral pose
while the head pose at profile value 0 restores the driven tilt attribute to
its neutral value — so no driven part is ever left at an intermediate value. -/
theorem c2_animation_neutral_completion :
    (∀ (s : ℚ → ℚ) (now : ℕ) (st : AnimState) (pid : String) (anim : AnimRec)
        (pose : CharacterPose),
      KeysNodup st.playerAnimations →
      (pid, anim) ∈ st.playerAnimations →
      (anim.type = "kick" ∨ anim.type = "head") →
      alookup pid st.playerMeshes = some pose →
      anim.startTime + 500 ≤ now →
      alookup pid (updatePlayerAnimations s now st).playerMeshes = some neutralPose ∧
      alookup pid (updatePlayerAnimations s now st).playerAnimations = none) ∧
    halfSine 1 = 0 ∧
    (∀ pose : CharacterPose, kickPoseAt 0 pose = neutralPose) ∧
    (∀ pose : CharacterPose, (headPoseAt 0 pose).characterRotX = neutralPose.characterRotX) := by
  refine ⟨?_, ?_, ?_, ?_⟩
  · intro s now st pid anim pose hnd hm _htype hmesh helapsed
    exact animFold_completes s now st.playerAnimations
      { playerMeshes := st.playerMeshes, playerAnimations := [] }
      pid anim pose hnd (fun q _ => rfl) hm hmesh helapsed
  · rw [halfSine, one_mul]
    exact Real.sin_pi
  · intro pose
    simp only [kickPoseAt, neutralPose, CharacterPose.mk.injEq]
    norm_num
  · intro pose
    simp only [headPoseAt, neutralPose]
    norm_num

/-- Closed instance of `c2_animation_neutral_completion`: a kick record
started at 50 ms, ticked at 600 ms, resets the mesh to the neutral pose and
is dropped; the hypotheses are discharged concretely. -/
theorem c2_animation_neutral_completion_witness :
    ((("a" : String), AnimRec.mk "kick" 50) ∈
        ([("a", AnimRec.mk "kick" 50)] : List (String × AnimRec))) ∧
    ((AnimRec.mk "kick" 50).startTime + 500 ≤ 600) ∧
    alookup "a" (updatePlayerAnimations (fun p => p) 600
      ⟨[("a", kickPoseAt (1 / 2) neutralPose)], [("a", ⟨"kick", 50⟩)]⟩).playerMeshes =
      some neutralPose ∧
    alookup "a" (updatePlayerAnimations (fun p => p) 600
      ⟨[("a", kickPoseAt (1 / 2) neutralPose)], [("a", ⟨"kick", 50⟩)]⟩).playerAnimations =
      none := by
  refine ⟨by simp, by decide, ?_⟩
  exact c2_animation_neutral_completion.1 (fun p => p) 600
    ⟨[("a", kickPoseAt (1 / 2) neutralPose)], [("a", ⟨"kick", 50⟩)]⟩
    "a" ⟨"kick", 50⟩ (kickPoseAt (1 / 2) neutralPose)
    (by simp [KeysNodup, keysOf]) (by simp) (by simp) (by simp [alookup]) (by decide)

/-- C7 counterexample: a kick record for entity g with no mesh present is NOT
removed from the animation map by the next tick — `updatePlayerAnimations`
skips it with `continue` and keeps it, so the claim that the record is
removed is false. -/
theorem c7_missing_target_counterexample :
    (updatePlayerAnimations (fun p => p) 100
        ⟨[], [("g", ⟨"kick", 0⟩)]⟩).playerAnimations = [("g", ⟨"kick", 0⟩)] ∧
    ¬ (alookup "g" (updatePlayerAnimations (fun p => p) 100
        ⟨[], [("g", ⟨"kick", 0⟩)]⟩).playerAnimations = none) := by
  constructor
  · simp [updatePlayerAnimations, animTickOne, alookup]
  · simp [updatePlayerAnimations, animTickOne, alookup]

/-- The tick fold never creates a mesh entry. -/
theorem animFold_mesh_none (s : ℚ → ℚ) (now : ℕ) (l : List (String × AnimRec)) :
    ∀ (acc : AnimState) (pid : String), alookup pid acc.playerMeshes = none →
      alookup pid (l.foldl (animTickOne s now) acc).playerMeshes = none := by
  induction l with
  | nil => intro acc pid h; exact h
  | cons e rest ih =>
    intro acc pid h
    rw [List.foldl_cons]
    apply ih
    rw [animTickOne]
    cases halo : alookup e.1 acc.playerMeshes with
    | none => exact h
    | some pose =>
      have hne : e.1 ≠ pid := by
        intro hc
        rw [hc, h] at halo
        cases halo
      by_cases hcond : (e.2.type = "kick" ∨ e.2.type = "head") ∧ now - e.2.startTime < 500
      · simp only [halo, if_pos hcond]
        rw [alookup_aset_ne hne]
        exact h
      · simp only [halo, if_neg hcond]
        rw [alookup_aset_ne hne]
        exact h

/-- C7 (amended): a record whose target entity has no mesh (destroyed by the
reconciler) is silently skipped by the next tick — no pose state is created
or touched for it and the tick is total (no throw) — but the record is
retained in the animation map rather than removed. -/
theorem c7_missing_target_skipped :
    ∀ (s : ℚ → ℚ) (now : ℕ) (st : AnimState) (pid : String) (anim : AnimRec),
      KeysNodup st.playerAnimations →
      (pid, anim) ∈ st.playerAnimations →
      alookup pid st.playerMeshes = none →
      (pid, anim) ∈ (updatePlayerAnimations s now st).playerAnimations ∧
      alookup pid (updatePlayerAnimations s now st).playerMeshes = none := by
  intro s now st pid anim hnd hm hnone
  constructor
  · rw [updatePlayerAnimations]
    -- walk the fold to the entry, which appends the record to the kept list
    have main : ∀ (l : List (String × AnimRec)) (acc : AnimState),
        (keysOf l).Nodup →
        (pid, anim) ∈ l →
        alookup pid acc.playerMeshes = none →
        (pid, anim) ∈ (l.foldl (animTickOne s now) acc).playerAnimations := by
      intro l
      induction l with
      | nil => intro _ _ hm2 _; cases hm2
      | cons e rest ih =>
        obtain ⟨ek, ea⟩ := e
        intro acc hnd2 hm2 hnone2
        rcases List.mem_cons.mp hm2 with heq | hmrest
        · injection heq with h1 h2
          subst h1
          subst h2
          rw [List.foldl_cons]
          apply animFold_anim_mono
          rw [animTickOne]
          simp only [hnone2]
          exact List.mem_append_right _ (List.mem_cons_self _ _)
        · have hne : ek ≠ pid := by
            intro hc
            have hmem : pid ∈ keysOf rest := List.mem_map.mpr ⟨(pid, anim), hmrest, rfl⟩
            exact (List.nodup_cons.mp hnd2).1 (hc ▸ hmem)
          rw [List.foldl_cons]
          apply ih _ ((List.nodup_cons.mp hnd2).2) hmrest
          rw [animTickOne]
          cases halo : alookup ek acc.playerMeshes with
          | none => exact hnone2
          | some pose =>
            by_cases hcond : (ea.type = "kick" ∨ ea.type = "head") ∧ now - ea.startTime < 500
            · simp only [halo, if_pos hcond]
              rw [alookup_aset_ne hne]
              exact hnone2
            · simp only [halo, if_neg hcond]
              rw [alookup_aset_ne hne]
              exact hnone2
    exact main st.playerAnimations _ hnd hm hnone
  · rw [updatePlayerAnimations]
    exact animFold_mesh_none s now st.playerAnimations _ pid hnone

/-- Closed instance of `c7_missing_target_skipped`: the ghost record for g
survives the tick and still has no mesh. -/
theorem c7_missing_target_skipped_witness :
    ((("g" : String), AnimRec.mk "kick" 0) ∈
        ([("g", AnimRec.mk "kick" 0)] : List (String × AnimRec))) ∧
    ((("g" : String), AnimRec.mk "kick" 0) ∈
      (updatePlayerAnimations (fun p => p) 100
        ⟨[], [("g", ⟨"kick", 0⟩)]⟩).playerAnimations) ∧
    alookup "g" (updatePlayerAnimations (fun p => p) 100
        ⟨[], [("g", ⟨"kick", 0⟩)]⟩).playerMeshes = none := by
  refine ⟨by simp, ?_⟩
  exact c7_missing_target_skipped (fun p => p) 100 ⟨[], [("g", ⟨"kick", 0⟩)]⟩
    "g" ⟨"kick", 0⟩ (by simp [KeysNodup, keysOf]) (by simp) (by simp [alookup])

/-! ## Animation triggering (`GameScene.setInput` lines 930–937,
`animatePlayerKick` lines 955–961)

`animatePlayerKick` unconditionally calls `playerAnimations.set(playerId,
{type, startTime: Date.now()})`.  `setInput` triggers it for the local
player only when the incoming staged action is non-null and differs from the
currently staged action — the guard compares staged input fields, not
in-flight animation records. -/

structure SceneInputState where
  myPlayerId : String
  currentInput : InputStaged
  playerAnimations : List (String × AnimRec)
deriving DecidableEq

/-- `animatePlayerKick(playerId, action)`: set (insert or replace) the
entity's animation record with a fresh start time. -/
def animatePlayerKick (st : SceneInputState) (playerId action : String)
    (now : ℕ) : SceneInputState :=
  { st with playerAnimations := aset playerId ⟨action, now⟩ st.playerAnimations }

/-- `setInput(input)`: trigger the local player's animation when the staged
action is non-null and differs from the previously staged action, then stage
the new input. -/
def setInput (st : SceneInputState) (input : InputStaged) (now : ℕ) : SceneInputState :=
  let st1 :=
    match input.action with
    | some a => if st.currentInput.action ≠ some a then animatePlayerKick st st.myPlayerId a now else st
    | none => st
  { st1 with currentInput := input }

/-- C8 counterexample: the local player presses kick at t = 0 (record
`(kick, 0)` starts), the staged action resets to null at t = 100 (as the UI
does 100 ms after a press), and kick is pressed again at t = 150 — while the
identical-kind record `(kick, 0)` is still in flight (150 − 0 < 500).  The
second press restarts it, replacing its start time with 150, so the claim
that an identical action kind already in flight is never restarted is false. -/
theorem c8_identical_restart_counterexample :
    alookup "me"
      (setInput
        (setInput ⟨"me", ⟨(0, 0), false, none⟩, []⟩ ⟨(0, 0), false, some "kick"⟩ 0)
        ⟨(0, 0), false, none⟩ 100).playerAnimations = some ⟨"kick", 0⟩ ∧
    ((150 : ℕ) - 0 < 500) ∧
    alookup "me"
      (setInput
        (setInput
          (setInput ⟨"me", ⟨(0, 0), false, none⟩, []⟩ ⟨(0, 0), false, some "kick"⟩ 0)
          ⟨(0, 0), false, none⟩ 100)
        ⟨(0, 0), false, some "kick"⟩ 150).playerAnimations = some ⟨"kick", 150⟩ := by
  refine ⟨?_, by decide, ?_⟩
  · simp [setInput, animatePlayerKick, aset, alookup]
  · simp [setInput, animatePlayerKick, aset, alookup]

/-- C8 (amended): the animation map is keyed by entity id, so each entity has
at most one active record (key-uniqueness is preserved by every trigger);
triggering an action whose kind differs from the currently staged one (for
example kick then head before the kick completes) immediately supersedes the
entity's record, replacing its start time, so the subsequent pose is driven
solely by the new record; and a `setInput` whose action equals the currently
staged action does not touch the animation map.  The in-flight guard only
compares staged input fields: once the staged action resets to null, an
identical action kind restarts the record (see the counterexample), and a
direct `animatePlayerKick` (remote message) always replaces the record. -/
theorem c8_single_record_supersede :
    (∀ (st : SceneInputState) (input : InputStaged) (now : ℕ),
      KeysNodup st.playerAnimations →
      KeysNodup (setInput st input now).playerAnimations) ∧
    (∀ (st : SceneInputState) (a : String) (now : ℕ),
      st.currentInput.action ≠ some a →
      (setInput st ⟨st.currentInput.move, st.currentInput.jump, some a⟩ now).playerAnimations =
        aset st.myPlayerId ⟨a, now⟩ st.playerAnimations) ∧
    (∀ (st : SceneInputState) (input : InputStaged) (now : ℕ),
      input.action = st.currentInput.action →
      (setInput st input now).playerAnimations = st.playerAnimations) ∧
    (∀ (st : SceneInputState) (pid a : String) (now : ℕ),
      alookup pid (animatePlayerKick st pid a now).playerAnimations = some ⟨a, now⟩) := by
  refine ⟨?_, ?_, ?_, ?_⟩
  · intro st input now hnd
    rw [setInput]
    cases ha : input.action with
    | none => exact hnd
    | some a =>
      by_cases hne : st.currentInput.action ≠ some a
      · simp only [if_pos hne]
        exact keysNodup_aset _ _ hnd
      · simp only [if_neg hne]
        exact hnd
  · intro st a now hne
    rw [setInput]
    simp only [if_pos hne]
    rfl
  · intro st input now heq
    rw [setInput]
    cases ha : input.action with
    | none => rfl
    | some a =>
      have : ¬ (st.currentInput.action ≠ some a) := by
        rw [← heq, ha]
        simp
      simp only [if_neg this]
  · intro st pid a now
    rw [animatePlayerKick]
    exact alookup_aset_self _ _ _

/-- Closed instance of `c8_single_record_supersede`: a head press while kick
is staged replaces the in-flight kick record, substituting its start time. -/
theorem c8_single_record_supersede_witness :
    ((some "kick" : Option String) ≠ some "head") ∧
    (setInput ⟨"me", ⟨(0, 0), false, some "kick"⟩, [("me", ⟨"kick", 0⟩)]⟩
        ⟨(0, 0), false, some "head"⟩ 200).playerAnimations =
      aset "me" ⟨"head", 200⟩ [("me", ⟨"kick", 0⟩)] := by
  constructor
  · simp
  · exact c8_single_record_supersede.2.1
      ⟨"me", ⟨(0, 0), false, some "kick"⟩, [("me", ⟨"kick", 0⟩)]⟩ "head" 200 (by simp)

/-! ## Entity Reconciler (`GameScene.updateGameObjects` lines 673–779,
teardown `dispose` lines 1043–1085)

Phase 1 iterates the snapshot's player map: an id with no mesh gets one
created (`createPlayerMesh`) and registered (`playerMeshes.set` +
`scene.add`); every snapshot player then has position/rotation (and cached
role) directly overwritten from the snapshot — no interpolation.  Phase 2
iterates the local mesh map and, for every id absent from the snapshot, calls
`scene.remove(mesh)` and `playerMeshes.delete(playerId)` — and nothing else:
no geometry or material of the removed subtree is disposed there.  Teardown
(`dispose`) walks the meshes still present in the map and disposes their
geometries and materials.  The transient role-change glow effect allocates
and disposes its own resources and owns nothing of the entity subtree, so it
is not tracked here; creation/removal event lists are threaded to count how
often each id is handled. -/

structure PlayerSnap where
  nickname : String
  role : String
  color : String
  x : ℚ
  y : ℚ
  z : ℚ
  rotY : ℚ
deriving DecidableEq

structure RenderMesh where
  x : ℚ
  y : ℚ
  z : ℚ
  rotY : ℚ
  role : String
  resources : List String
deriving DecidableEq

/-- The GPU-owned resources of a player-mesh subtree (geometries and
materials of the character parts and the label sprite), named per entity so
disposal can be tracked. -/
def meshResources (playerId : String) : List String :=
  [playerId ++ ".bodyGeometry", playerId ++ ".bodyMaterial",
   playerId ++ ".legGeometry", playerId ++ ".legMaterial",
   playerId ++ ".labelTexture", playerId ++ ".labelMaterial"]

/-- `createPlayerMesh(playerId, nickname, role, colorStr)`: a fresh subtree
at the origin owning its resources (the visual attributes derived from
nickname/color are not observable by the claims and are not tracked). -/
def createPlayerMesh (playerId nickname role colorStr : String) : RenderMesh :=
  { x := 0, y := 0, z := 0, rotY := 0, role := role, resources := meshResources playerId }

/-- The direct per-snapshot overwrite: `position.copy`, `rotation.y`, and the
cached `userData.role`. -/
def overwriteFromSnap (m : RenderMesh) (p : PlayerSnap) : RenderMesh :=
  { m with x := p.x, y := p.y, z := p.z, rotY := p.rotY, role := p.role }

/-- The reconciler's persistent state between snapshots. -/
structure ReconState where
  playerMeshes : List (String × RenderMesh)
  sceneIds : List String
deriving DecidableEq

/-- The result of applying one snapshot, with event logs for the call:
creation events, removal events, and resources disposed during the call. -/
structure ReconResult where
  playerMeshes : List (String × RenderMesh)
  sceneIds : List String
  creations : List String
  removals : List String
  disposals : List String
deriving DecidableEq

/-- Phase-1 body: create-and-register when the id is unknown, then directly
overwrite pose state from the snapshot (the creation branch falls through to
the same overwrite code in the source). -/
def upsertPlayer (acc : ReconResult) (e : String × PlayerSnap) : ReconResult :=
  match alookup e.1 acc.playerMeshes with
  | none =>
    let m := createPlayerMesh e.1 e.2.nickname e.2.role e.2.color
    { acc with
      playerMeshes := aset e.1 (overwriteFromSnap m e.2) acc.playerMeshes,
      sceneIds := e.1 :: acc.sceneIds,
      creations := acc.creations ++ [e.1] }
  | some m =>
    { acc with playerMeshes := aset e.1 (overwriteFromSnap m e.2) acc.playerMeshes }

/-- Phase-2 body for one mesh-map entry: an id absent from the snapshot is
removed from the scene and deleted from the map; lines 758–764 contain no
dispose call, so `disposals` is untouched. -/
def removeOne (snapKeys : List String) (acc : ReconResult) (e : String × RenderMesh) :
    ReconResult :=
  if e.1 ∈ snapKeys then acc
  else
    { acc with
      sceneIds := acc.sceneIds.filter (fun i => i ≠ e.1),
      playerMeshes := adelete e.1 acc.playerMeshes,
      removals := acc.removals ++ [e.1] }

/-- `updateGameObjects`: phase 1 over the snapshot players, then phase 2 over
the mesh map as it stood after phase 1 (deleting the entry being visited is
safe during JS `Map` iteration, so iterating that list is equivalent). -/
def updateGameObjects (st : ReconState) (snap : List (String × PlayerSnap)) : ReconResult :=
  let acc1 := snap.foldl upsertPlayer
    { playerMeshes := st.playerMeshes, sceneIds := st.sceneIds,
      creations := [], removals := [], disposals := [] }
  acc1.playerMeshes.foldl (removeOne (keysOf snap)) acc1

/-- `dispose` (teardown): every mesh still present in the map has its
subtree's geometries and materials disposed. -/
def disposeScene (r : ReconResult) : ReconResult :=
  { r with disposals := r.disposals ++ (r.playerMeshes.map (fun e => e.2.resources)).flatten }

theorem upsertPlayer_removals (acc : ReconResult) (e : String × PlayerSnap) :
    (upsertPlayer acc e).removals = acc.removals ∧
    (upsertPlayer acc e).disposals = acc.disposals := by
  rw [upsertPlayer]
  cases alookup e.1 acc.playerMeshes <;> exact ⟨rfl, rfl⟩

theorem upsertFold_removals (l : List (String × PlayerSnap)) :
    ∀ acc : ReconResult, (l.foldl upsertPlayer acc).removals = acc.removals ∧
      (l.foldl upsertPlayer acc).disposals = acc.disposals := by
  induction l with
  | nil => intro acc; exact ⟨rfl, rfl⟩
  | cons e rest ih =>
    intro acc
    rw [List.foldl_cons]
    exact ⟨((ih _).1).trans (upsertPlayer_removals acc e).1,
           ((ih _).2).trans (upsertPlayer_removals acc e).2⟩

theorem upsertFold_notin (l : List (String × PlayerSnap)) :
    ∀ (acc : ReconResult) (pid : String), pid ∉ keysOf l →
      alookup pid (l.foldl upsertPlayer acc).playerMeshes = alookup pid acc.playerMeshes ∧
      (l.foldl upsertPlayer acc).creations.count pid = acc.creations.count pid := by
  induction l with
  | nil => intro acc pid _; exact ⟨rfl, rfl⟩
  | cons e rest ih =>
    intro acc pid hpid
    have hne : e.1 ≠ pid := fun hc => hpid (hc ▸ List.mem_cons_self _ _)
    have hrest : pid ∉ keysOf rest := fun hc => hpid (List.mem_cons_of_mem _ hc)
    rw [List.foldl_cons]
    have hstep_mesh : alookup pid (upsertPlayer acc e).playerMeshes =
        alookup pid acc.playerMeshes := by
      rw [upsertPlayer]
      cases alookup e.1 acc.playerMeshes <;> exact alookup_aset_ne hne _ _
    have hstep_count : (upsertPlayer acc e).creations.count pid =
        acc.creations.count pid := by
      rw [upsertPlayer]
      cases alookup e.1 acc.playerMeshes with
      | none => simp [List.count_append, List.count_cons, List.count_nil, Ne.symm hne]
      | some m => rfl
    exact ⟨((ih _ pid hrest).1).trans hstep_mesh, ((ih _ pid hrest).2).trans hstep_count⟩

theorem upsertFold_mesh_isSome (l : List (String × PlayerSnap)) :
    ∀ (acc : ReconResult) (pid : String),
      (alookup pid acc.playerMeshes).isSome →
      (alookup pid (l.foldl upsertPlayer acc).playerMeshes).isSome := by
  induction l with
  | nil => intro acc pid h; exact h
  | cons e rest ih =>
    intro acc pid h
    rw [List.foldl_cons]
    apply ih
    rw [upsertPlayer]
    by_cases hne : e.1 = pid
    · subst hne
      cases halo : alookup e.1 acc.playerMeshes <;>
        simp [alookup_aset_self]
    · cases halo : alookup e.1 acc.playerMeshes <;>
        simpa [alookup_aset_ne hne] using h

theorem upsertFold_meshNodup (l : List (String × PlayerSnap)) :
    ∀ acc : ReconResult, KeysNodup acc.playerMeshes →
      KeysNodup (l.foldl upsertPlayer acc).playerMeshes := by
  induction l with
  | nil => intro acc h; exact h
  | cons e rest ih =>
    intro acc h
    rw [List.foldl_cons]
    apply ih
    rw [upsertPlayer]
    cases alookup e.1 acc.playerMeshes <;> exact keysNodup_aset _ _ h

theorem upsertFold_creates (l : List (String × PlayerSnap)) :
    ∀ (acc : ReconResult) (pid : String) (p : PlayerSnap),
      (keysOf l).Nodup → (pid, p) ∈ l →
      (l.foldl upsertPlayer acc).creations.count pid =
        acc.creations.count pid +
          (if alookup pid acc.playerMeshes = none then 1 else 0) := by
  induction l with
  | nil => intro _ _ _ _ hm; cases hm
  | cons e rest ih =>
    obtain ⟨ek, ep⟩ := e
    intro acc pid p hnd hm
    rw [List.foldl_cons]
    rcases List.mem_cons.mp hm with heq | hmrest
    · injection heq with h1 h2
      subst h1
      subst h2
      have hnotrest : pid ∉ keysOf rest := (List.nodup_cons.mp hnd).1
      rw [(upsertFold_notin rest _ pid hnotrest).2]
      rw [upsertPlayer]
      cases halo : alookup pid acc.playerMeshes with
      | none => simp [List.count_append, List.count_cons, List.count_nil, halo]
      | some m => simp [halo]
    · have hne : ek ≠ pid := by
        intro hc
        have hmem : pid ∈ keysOf rest := List.mem_map.mpr ⟨(pid, p), hmrest, rfl⟩
        exact (List.nodup_cons.mp hnd).1 (hc ▸ hmem)
      have hstep_count : (upsertPlayer acc (ek, ep)).creations.count pid =
          acc.creations.count pid := by
        rw [upsertPlayer]
        cases alookup ek acc.playerMeshes with
        | none => simp [List.count_append, List.count_cons, List.count_nil, Ne.symm hne]
        | some m => rfl
      have hstep_mesh : alookup pid (upsertPlayer acc (ek, ep)).playerMeshes =
          alookup pid acc.playerMeshes := by
        rw [upsertPlayer]
        cases alookup ek acc.playerMeshes with
        | none => exact alookup_aset_ne hne _ _
        | some m => exact alookup_aset_ne hne _ _
      rw [ih _ pid p (List.nodup_cons.mp hnd).2 hmrest, hstep_count, hstep_mesh]

theorem upsertFold_pose (l : List (String × PlayerSnap)) :
    ∀ (acc : ReconResult) (pid : String) (p : PlayerSnap),
      (keysOf l).Nodup → (pid, p) ∈ l →
      ∃ m, alookup pid (l.foldl upsertPlayer acc).playerMeshes = some m ∧
        m.x = p.x ∧ m.y = p.y ∧ m.z = p.z ∧ m.rotY = p.rotY ∧ m.role = p.role := by
  induction l with
  | nil => intro _ _ _ _ hm; cases hm
  | cons e rest ih =>
    obtain ⟨ek, ep⟩ := e
    intro acc pid p hnd hm
    rw [List.foldl_cons]
    rcases List.mem_cons.mp hm with heq | hmrest
    · injection heq with h1 h2
      subst h1
      subst h2
      have hnotrest : pid ∉ keysOf rest := (List.nodup_cons.mp hnd).1
      rw [(upsertFold_notin rest _ pid hnotrest).1]
      rw [upsertPlayer]
      cases halo : alookup pid acc.playerMeshes with
      | none =>
        exact ⟨_, alookup_aset_self _ _ _, rfl, rfl, rfl, rfl, rfl⟩
      | some m =>
        exact ⟨_, alookup_aset_self _ _ _, rfl, rfl, rfl, rfl, rfl⟩
    · have hne : ek ≠ pid := by
        intro hc
        have hmem : pid ∈ keysOf rest := List.mem_map.mpr ⟨(pid, p), hmrest, rfl⟩
        exact (List.nodup_cons.mp hnd).1 (hc ▸ hmem)
      exact ih _ pid p (List.nodup_cons.mp hnd).2 hmrest

theorem mem_keysOf_adelete {α : Type} {q k : String} {l : List (String × α)}
    (h : q ∈ keysOf (adelete k l)) : q ∈ keysOf l := by
  induction l with
  | nil => exact h
  | cons e rest ih =>
    obtain ⟨k', v'⟩ := e
    by_cases hk : k' = k
    · subst hk
      simp only [adelete, if_pos rfl] at h
      exact List.mem_cons_of_mem _ h
    · simp only [adelete, if_neg hk, keysOf, List.map_cons, List.mem_cons] at h ⊢
      rcases h with h | h
      · exact Or.inl h
      · exact Or.inr (ih h)

theorem keysNodup_adelete {α : Type} (k : String) {l : List (String × α)}
    (hnd : KeysNodup l) : KeysNodup (adelete k l) := by
  induction l with
  | nil => exact hnd
  | cons e rest ih =>
    obtain ⟨k', v'⟩ := e
    have h1 : k' ∉ keysOf rest := (List.nodup_cons.mp hnd).1
    have h2 : KeysNodup rest := (List.nodup_cons.mp hnd).2
    by_cases hk : k' = k
    · subst hk
      simpa [adelete] using h2
    · simp only [adelete, if_neg hk, KeysNodup, keysOf, List.map_cons, List.nodup_cons]
      exact ⟨fun hc => h1 (mem_keysOf_adelete hc), ih h2⟩

theorem alookup_adelete_none {α : Type} (q pid : String) {l : List (String × α)}
    (h : alookup pid l = none) : alookup pid (adelete q l) = none := by
  induction l with
  | nil => exact h
  | cons e rest ih =>
    obtain ⟨k', v'⟩ := e
    have hk : k' ≠ pid := by
      intro hc
      subst hc
      simp [alookup] at h
    simp only [alookup, if_neg hk] at h
    by_cases hq : k' = q
    · simp only [adelete, if_pos hq]
      exact h
    · simp only [adelete, if_neg hq, alookup, if_neg hk]
      exact ih h

theorem removeOne_creations (sk : List String) (acc : ReconResult) (e : String × RenderMesh) :
    (removeOne sk acc e).creations = acc.creations ∧
    (removeOne sk acc e).disposals = acc.disposals := by
  rw [removeOne]
  by_cases h : e.1 ∈ sk <;> simp [h]

theorem removeFold_creations (sk : List String) (l : List (String × RenderMesh)) :
    ∀ acc : ReconResult,
      (l.foldl (removeOne sk) acc).creations = acc.creations ∧
      (l.foldl (removeOne sk) acc).disposals = acc.disposals := by
  induction l with
  | nil => intro acc; exact ⟨rfl, rfl⟩
  | cons e rest ih =>
    intro acc
    rw [List.foldl_cons]
    exact ⟨((ih _).1).trans (removeOne_creations sk acc e).1,
           ((ih _).2).trans (removeOne_creations sk acc e).2⟩

theorem removeFold_in_snap (sk : List String) (l : List (String × RenderMesh)) :
    ∀ (acc : ReconResult) (pid : String), pid ∈ sk →
      (l.foldl (removeOne sk) acc).removals.count pid = acc.removals.count pid ∧
      alookup pid (l.foldl (removeOne sk) acc).playerMeshes = alookup pid acc.playerMeshes := by
  induction l with
  | nil => intro acc pid _; exact ⟨rfl, rfl⟩
  | cons e rest ih =>
    intro acc pid hpid
    rw [List.foldl_cons]
    by_cases hsk : e.1 ∈ sk
    · have hstep : removeOne sk acc e = acc := by rw [removeOne]; simp [hsk]
      rw [hstep]
      exact ih acc pid hpid
    · have hne : e.1 ≠ pid := fun hc => hsk (hc ▸ hpid)
      have hstep : removeOne sk acc e =
          { acc with
            sceneIds := acc.sceneIds.filter (fun i => i ≠ e.1),
            playerMeshes := adelete e.1 acc.playerMeshes,
            removals := acc.removals ++ [e.1] } := by
        rw [removeOne]; simp [hsk]
      rw [hstep]
      refine ⟨((ih _ pid hpid).1).trans ?_, ((ih _ pid hpid).2).trans ?_⟩
      · simp [List.count_append, List.count_cons, List.count_nil, Ne.symm hne]
      · exact alookup_adelete_ne hne _

theorem removeFold_notin_keys (sk : List String) (l : List (String × RenderMesh)) :
    ∀ (acc : ReconResult) (pid : String), pid ∉ keysOf l →
      (l.foldl (removeOne sk) acc).removals.count pid = acc.removals.count pid ∧
      alookup pid (l.foldl (removeOne sk) acc).playerMeshes = alookup pid acc.playerMeshes ∧
      (pid ∉ acc.sceneIds → pid ∉ (l.foldl (removeOne sk) acc).sceneIds) := by
  induction l with
  | nil => intro acc pid _; exact ⟨rfl, rfl, fun h => h⟩
  | cons e rest ih =>
    intro acc pid hpid
    have hne : e.1 ≠ pid := fun hc => hpid (hc ▸ List.mem_cons_self _ _)
    have hrest : pid ∉ keysOf rest := fun hc => hpid (List.mem_cons_of_mem _ hc)
    rw [List.foldl_cons]
    by_cases hsk : e.1 ∈ sk
    · have hstep : removeOne sk acc e = acc := by rw [removeOne]; simp [hsk]
      rw [hstep]
      exact ih acc pid hrest
    · have hstep : removeOne sk acc e =
          { acc with
            sceneIds := acc.sceneIds.filter (fun i => i ≠ e.1),
            playerMeshes := adelete e.1 acc.playerMeshes,
            removals := acc.removals ++ [e.1] } := by
        rw [removeOne]; simp [hsk]
      rw [hstep]
      refine ⟨((ih _ pid hrest).1).trans ?_, ((ih _ pid hrest).2.1).trans ?_, ?_⟩
      · simp [List.count_append, List.count_cons, List.count_nil, Ne.symm hne]
      · exact alookup_adelete_ne hne _
      · intro hnotin
        refine (ih _ pid hrest).2.2 ?_
        intro hc
        exact hnotin (List.mem_of_mem_filter hc)

theorem removeFold_removed (sk : List String) (l : List (String × RenderMesh)) :
    ∀ (acc : ReconResult) (pid : String), pid ∉ sk →
      List.count pid (keysOf l) = 1 →
      KeysNodup acc.playerMeshes →
      (alookup pid acc.playerMeshes).isSome →
      (l.foldl (removeOne sk) acc).removals.count pid = acc.removals.count pid + 1 ∧
      alookup pid (l.foldl (removeOne sk) acc).playerMeshes = none ∧
      pid ∉ (l.foldl (removeOne sk) acc).sceneIds := by
  induction l with
  | nil =>
    intro acc pid _ hcount _ _
    simp [keysOf] at hcount
  | cons e rest ih =>
    intro acc pid hsk hcount hnd hsome
    rw [List.foldl_cons]
    by_cases hpe : e.1 = pid
    · have hrest0 : List.count pid (keysOf rest) = 0 := by
        have : List.count pid (keysOf (e :: rest)) =
            List.count pid (keysOf rest) + 1 := by
          simp [keysOf, List.count_cons, hpe]
        omega
      have hnotrest : pid ∉ keysOf rest := by
        intro hc
        have := List.count_pos_iff.mpr hc
        omega
      have hstep : removeOne sk acc e =
          { acc with
            sceneIds := acc.sceneIds.filter (fun i => i ≠ e.1),
            playerMeshes := adelete e.1 acc.playerMeshes,
            removals := acc.removals ++ [e.1] } := by
        rw [removeOne]
        simp [hpe, hsk]
      rw [hstep]
      obtain ⟨hc1, hc2, hc3⟩ := removeFold_notin_keys sk rest _ pid hnotrest
      refine ⟨hc1.trans ?_, hc2.trans ?_, hc3 ?_⟩
      · simp [List.count_append, List.count_cons, List.count_nil, hpe]
      · rw [hpe]
        exact alookup_adelete_self pid acc.playerMeshes hnd
      · intro hc
        have := List.mem_filter.mp hc
        rw [hpe] at this
        simp at this
    · have hrest1 : List.count pid (keysOf rest) = 1 := by
        have : List.count pid (keysOf (e :: rest)) = List.count pid (keysOf rest) := by
          simp [keysOf, List.count_cons, Ne.symm hpe]
        omega
      by_cases hsk2 : e.1 ∈ sk
      · have hstep : removeOne sk acc e = acc := by rw [removeOne]; simp [hsk2]
        rw [hstep]
        exact ih acc pid hsk hrest1 hnd hsome
      · have hstep : removeOne sk acc e =
            { acc with
              sceneIds := acc.sceneIds.filter (fun i => i ≠ e.1),
              playerMeshes := adelete e.1 acc.playerMeshes,
              removals := acc.removals ++ [e.1] } := by
          rw [removeOne]; simp [hsk2]
        rw [hstep]
        have hsome2 : (alookup pid (adelete e.1 acc.playerMeshes)).isSome := by
          rw [alookup_adelete_ne hpe]
          exact hsome
        obtain ⟨hc1, hc2, hc3⟩ := ih
          { acc with
            sceneIds := acc.sceneIds.filter (fun i => i ≠ e.1),
            playerMeshes := adelete e.1 acc.playerMeshes,
            removals := acc.removals ++ [e.1] }
          pid hsk hrest1 (keysNodup_adelete e.1 hnd) hsome2
        refine ⟨hc1.trans ?_, hc2, hc3⟩
        simp [List.count_append, List.count_cons, List.count_nil, Ne.symm hpe]

theorem count_keysOf_eq_one {α : Type} {l : List (String × α)} {pid : String}
    (hnd : KeysNodup l) (hsome : (alookup pid l).isSome) :
    List.count pid (keysOf l) = 1 := by
  obtain ⟨m, hm⟩ := Option.isSome_iff_exists.mp hsome
  have hmem : pid ∈ keysOf l := List.mem_map.mpr ⟨(pid, m), mem_of_alookup_eq hm, rfl⟩
  have hle : List.count pid (keysOf l) ≤ 1 := List.nodup_iff_count_le_one.mp hnd pid
  have hge : 0 < List.count pid (keysOf l) := List.count_pos_iff.mpr hmem
  omega

/-- Scenario data: player A (role rey, position (0,0,0)) and player B (role
mato, position (5,0,5)). -/
def snapPlayerA : PlayerSnap := ⟨"Ann", "rey", "#ff0000", 0, 0, 0, 0⟩

def snapPlayerB : PlayerSnap := ⟨"Bob", "mato", "#00ff00", 5, 0, 5, 0⟩

def scenarioSnap1 : List (String × PlayerSnap) := [("A", snapPlayerA)]

def scenarioSnap2 : List (String × PlayerSnap) := [("A", snapPlayerA), ("B", snapPlayerB)]

/-- Reconciler state after applying snapshot 1 to an empty scene. -/
def scenarioState1 : ReconState :=
  ⟨(updateGameObjects ⟨[], []⟩ scenarioSnap1).playerMeshes,
   (updateGameObjects ⟨[], []⟩ scenarioSnap1).sceneIds⟩

/-- C1: applying a snapshot splits the identifier space into three disjoint
sets, each handled exactly once — a snapshot id with no local mesh gets
exactly one creation, no removal, and a registered mesh carrying the
snapshot position/rotation; a snapshot id with a local mesh gets no creation,
no removal, and its mesh position/rotation directly overwritten with the
snapshot values; a local id absent from the snapshot is removed from the
scene and the map exactly once and is never created.  In the scenario where
snapshot 1 holds only player A and snapshot 2 adds player B, applying
snapshot 2 performs exactly one creation (for B), zero creations for A, and
zero removals. -/
theorem c1_snapshot_reconciliation :
    (∀ (st : ReconState) (snap : List (String × PlayerSnap)),
      KeysNodup snap → KeysNodup st.playerMeshes →
      (∀ pid p, (pid, p) ∈ snap → alookup pid st.playerMeshes = none →
        (updateGameObjects st snap).creations.count pid = 1 ∧
        (updateGameObjects st snap).removals.count pid = 0 ∧
        ∃ m, alookup pid (updateGameObjects st snap).playerMeshes = some m ∧
          m.x = p.x ∧ m.y = p.y ∧ m.z = p.z ∧ m.rotY = p.rotY) ∧
      (∀ pid p, (pid, p) ∈ snap → (alookup pid st.playerMeshes).isSome →
        (updateGameObjects st snap).creations.count pid = 0 ∧
        (updateGameObjects st snap).removals.count pid = 0 ∧
        ∃ m, alookup pid (updateGameObjects st snap).playerMeshes = some m ∧
          m.x = p.x ∧ m.y = p.y ∧ m.z = p.z ∧ m.rotY = p.rotY) ∧
      (∀ pid, pid ∉ keysOf snap → (alookup pid st.playerMeshes).isSome →
        (updateGameObjects st snap).removals.count pid = 1 ∧
        (updateGameObjects st snap).creations.count pid = 0 ∧
        alookup pid (updateGameObjects st snap).playerMeshes = none ∧
        pid ∉ (updateGameObjects st snap).sceneIds)) ∧
    (updateGameObjects scenarioState1 scenarioSnap2).creations = ["B"] ∧
    (updateGameObjects scenarioState1 scenarioSnap2).removals = [] := by
  refine ⟨?_, ?_, ?_⟩
  · intro st snap hsnap hmesh
    rw [updateGameObjects]
    set acc0 : ReconResult :=
      { playerMeshes := st.playerMeshes, sceneIds := st.sceneIds,
        creations := [], removals := [], disposals := [] } with hacc0
    set acc1 := snap.foldl upsertPlayer acc0 with hacc1
    refine ⟨?_, ?_, ?_⟩
    · intro pid p hm hnone
      have hkey : pid ∈ keysOf snap := List.mem_map.mpr ⟨(pid, p), hm, rfl⟩
      obtain ⟨hrm, hlook⟩ := removeFold_in_snap (keysOf snap) acc1.playerMeshes acc1 pid hkey
      refine ⟨?_, ?_, ?_⟩
      · rw [(removeFold_creations (keysOf snap) acc1.playerMeshes acc1).1]
        rw [upsertFold_creates snap acc0 pid p hsnap hm]
        simp [hacc0, hnone]
      · rw [hrm, (upsertFold_removals snap acc0).1]
        simp [hacc0]
      · rw [hlook]
        obtain ⟨m, h1, h2, h3, h4, h5, _⟩ := upsertFold_pose snap acc0 pid p hsnap hm
        exact ⟨m, h1, h2, h3, h4, h5⟩
    · intro pid p hm hsome
      have hkey : pid ∈ keysOf snap := List.mem_map.mpr ⟨(pid, p), hm, rfl⟩
      obtain ⟨hrm, hlook⟩ := removeFold_in_snap (keysOf snap) acc1.playerMeshes acc1 pid hkey
      refine ⟨?_, ?_, ?_⟩
      · rw [(removeFold_creations (keysOf snap) acc1.playerMeshes acc1).1]
        rw [upsertFold_creates snap acc0 pid p hsnap hm]
        have : ¬ (alookup pid acc0.playerMeshes = none) := by
          intro hc
          rw [show acc0.playerMeshes = st.playerMeshes from rfl] at hc
          rw [hc] at hsome
          cases hsome
        simp [this]
      · rw [hrm, (upsertFold_removals snap acc0).1]
        simp [hacc0]
      · rw [hlook]
        obtain ⟨m, h1, h2, h3, h4, h5, _⟩ := upsertFold_pose snap acc0 pid p hsnap hm
        exact ⟨m, h1, h2, h3, h4, h5⟩
    · intro pid hnkey hsome
      have hlook1 : alookup pid acc1.playerMeshes = alookup pid st.playerMeshes :=
        (upsertFold_notin snap acc0 pid hnkey).1
      have hsome1 : (alookup pid acc1.playerMeshes).isSome := by
        rw [hlook1]; exact hsome
      have hnd1 : KeysNodup acc1.playerMeshes :=
        upsertFold_meshNodup snap acc0 hmesh
      have hcount1 : List.count pid (keysOf acc1.playerMeshes) = 1 :=
        count_keysOf_eq_one hnd1 hsome1
      obtain ⟨hr1, hr2, hr3⟩ := removeFold_removed (keysOf snap) acc1.playerMeshes acc1
        pid hnkey hcount1 hnd1 hsome1
      refine ⟨?_, ?_, hr2, hr3⟩
      · rw [hr1, (upsertFold_removals snap acc0).1]
        simp [hacc0]
      · rw [(removeFold_creations (keysOf snap) acc1.playerMeshes acc1).1]
        rw [(upsertFold_notin snap acc0 pid hnkey).2]
        simp [hacc0]
  · simp [updateGameObjects, upsertPlayer, removeOne, alookup, aset, adelete, keysOf,
      createPlayerMesh, overwriteFromSnap, scenarioState1, scenarioSnap1, scenarioSnap2,
      snapPlayerA, snapPlayerB, meshResources]
  · simp [updateGameObjects, upsertPlayer, removeOne, alookup, aset, adelete, keysOf,
      createPlayerMesh, overwriteFromSnap, scenarioState1, scenarioSnap1, scenarioSnap2,
      snapPlayerA, snapPlayerB, meshResources]

/-- Closed instance of `c1_snapshot_reconciliation`: applying snapshot 1 to
an empty scene creates A exactly once, with no removal. -/
theorem c1_snapshot_reconciliation_witness :
    KeysNodup scenarioSnap1 ∧
    (("A", snapPlayerA) ∈ scenarioSnap1) ∧
    (updateGameObjects ⟨[], []⟩ scenarioSnap1).creations.count "A" = 1 ∧
    (updateGameObjects ⟨[], []⟩ scenarioSnap1).removals.count "A" = 0 := by
  have h := (c1_snapshot_reconciliation.1 ⟨[], []⟩ scenarioSnap1
    (by simp [KeysNodup, keysOf, scenarioSnap1])
    (by simp [KeysNodup, keysOf])).1 "A" snapPlayerA
    (by simp [scenarioSnap1]) (by simp [alookup])
  exact ⟨by simp [KeysNodup, keysOf, scenarioSnap1], by simp [scenarioSnap1], h.1, h.2.1⟩

/-- C6 (the code as written): removing a disconnected player executes only
`scene.remove(mesh)` and `playerMeshes.delete(playerId)` — it disposes none
of the geometries and materials owned by the removed subtree, and teardown
cannot reach them afterwards because the reference was dropped from the map,
so the removed entity's GPU resources are never released.  Concretely:
player A joins (its mesh owns its subtree resources), the next snapshot no
longer contains A, the removal step logs no disposal, and a subsequent
`dispose` still disposes nothing of A. -/
theorem c6_removal_never_disposes :
    (∃ m, alookup "A" (updateGameObjects ⟨[], []⟩ scenarioSnap1).playerMeshes = some m ∧
      m.resources = meshResources "A") ∧
    meshResources "A" ≠ [] ∧
    (updateGameObjects scenarioState1 []).removals = ["A"] ∧
    (updateGameObjects scenarioState1 []).disposals = [] ∧
    (disposeScene (updateGameObjects scenarioState1 [])).disposals = [] := by
  have hA : alookup "A" (updateGameObjects ⟨[], []⟩ scenarioSnap1).playerMeshes =
      some (RenderMesh.mk 0 0 0 0 "rey" (meshResources "A")) := by
    simp [updateGameObjects, upsertPlayer, removeOne, alookup, aset, adelete, keysOf,
      createPlayerMesh, overwriteFromSnap, scenarioSnap1, snapPlayerA]
  refine ⟨⟨RenderMesh.mk 0 0 0 0 "rey" (meshResources "A"), hA, rfl⟩,
    by simp [meshResources], ?_, ?_, ?_⟩ <;>
    simp [updateGameObjects, upsertPlayer, removeOne, alookup, aset, adelete, keysOf,
      createPlayerMesh, overwriteFromSnap, scenarioState1, scenarioSnap1,
      snapPlayerA, meshResources, disposeScene]
